import Mathlib

/-!
Shallow embedding of the Dominatro board-chain placement engine
(src/src/game/Board.ts, src/src/game/GameState.ts, src/src/types/index.ts).

JS numbers are modelled as `Int` for pip values and counts, and as `ℚ` for
layout coordinates (the layout constants 0.5, 1.1, 0.1 are exact decimals;
the claims under study concern the structure of the layout, not float
rounding).  JS object identity (used by `Array.prototype.indexOf` in
`GameState.removeDominoFromRack`) is modelled by tagging each tile object
with a numeric `id`: two tags are equal exactly when the JS references are
the same object.
-/

namespace Dominatro

/-- `DominoType` from src/src/types/index.ts. -/
inductive DominoType where
  | standard
  | wild
  | doubler
  | oddFavor
  | spinner
  | crusher
  | cheater
  | thief
  | blankSlate
  deriving DecidableEq, Repr

/-- `SPECIAL_TILE_PIP_VALUE` from src/src/types/index.ts. -/
def SPECIAL_TILE_PIP_VALUE : Int := -1

/-- `WILDCARD_TYPES` from src/src/types/index.ts. -/
def WILDCARD_TYPES : List DominoType :=
  [DominoType.wild, DominoType.crusher, DominoType.cheater, DominoType.spinner]

/-- `isWildcardType` from src/src/types/index.ts. -/
def isWildcardType (t : DominoType) : Bool :=
  WILDCARD_TYPES.contains t

/-- `DominoData` from src/src/types/index.ts: pip pair plus kind tag. -/
structure DominoData where
  left : Int
  right : Int
  type : DominoType
  deriving DecidableEq, Repr

instance : Inhabited DominoData := ⟨⟨0, 0, DominoType.standard⟩⟩

/-- `OpenEnds` from src/src/types/index.ts (`number | null` becomes `Option Int`). -/
structure OpenEnds where
  left : Option Int
  right : Option Int
  deriving DecidableEq, Repr

/-- `PlacementSide` from src/src/types/index.ts: `'left' | 'right' | 'center'`. -/
inductive PlacementSide where
  | left
  | right
  | center
  deriving DecidableEq, Repr

/-- A JS `DominoData` object reference: the `id` tag models the object's
identity (reference equality), `data` its fields. -/
structure TileRef where
  id : Nat
  data : DominoData
  deriving DecidableEq, Repr

instance : Inhabited TileRef := ⟨⟨0, default⟩⟩

/-- JS strict equality `p === e` where `e : number | null`: comparing a
number with `null` is `false`. -/
def pipMatches (p : Int) : Option Int → Bool
  | some v => p == v
  | none => false

/-! ## GameState (src/src/game/GameState.ts)

Only the fields the claims touch are modelled: `bonePile` (the tile pool)
and `playerRack` (the hand).  The scoring fields and the separate `board`
list used by `playTileFromRack` play no part in any claim. -/

structure GameState where
  bonePile : List TileRef
  playerRack : List TileRef
  deriving DecidableEq, Repr

/-- The tile data pushed by `GameState.initializeBonePile`: the 28 standard
combinations `0 ≤ left ≤ right ≤ 6` followed by the fixed special tiles,
in source order. -/
def initialBoneData : List DominoData :=
  ((List.range 7).flatMap fun l =>
    (List.range (7 - l)).map fun k =>
      ⟨(l : Int), (l : Int) + (k : Int), DominoType.standard⟩) ++
  [⟨0, 0, DominoType.wild⟩, ⟨0, 0, DominoType.wild⟩,
   ⟨3, 3, DominoType.doubler⟩, ⟨4, 4, DominoType.doubler⟩,
   ⟨1, 3, DominoType.oddFavor⟩,
   ⟨5, 5, DominoType.spinner⟩,
   ⟨6, 6, DominoType.crusher⟩,
   ⟨2, 4, DominoType.cheater⟩,
   ⟨1, 6, DominoType.thief⟩,
   ⟨0, 0, DominoType.blankSlate⟩]

/-- The freshly populated bone pile: each `push` creates a fresh JS object,
so the tiles get pairwise distinct identity tags. -/
def initialBonePile : List TileRef :=
  initialBoneData.enum.map fun p => ⟨p.1, p.2⟩

/-- Swap the elements at indices `i` and `j` of a list
(`[arr[i], arr[j]] = [arr[j], arr[i]]`); identity when an index is out of
range (unreachable in the modelled loop). -/
def swapIdx (l : List TileRef) (i j : Nat) : List TileRef :=
  match l.get? i, l.get? j with
  | some a, some b => (l.set i b).set j a
  | _, _ => l

/-- The Fisher–Yates loop of `GameState.shuffle`, run from index `i`
downwards; `r i % (i + 1)` models `Math.floor(Math.random() * (i + 1))`,
which lies in `[0, i]` for `Math.random() ∈ [0, 1)`. -/
def shuffleAux (r : Nat → Nat) : Nat → List TileRef → List TileRef
  | 0, l => l
  | i + 1, l => shuffleAux r i (swapIdx l (i + 1) (r (i + 1) % (i + 2)))

/-- `GameState.shuffle`, parameterised by the random stream `r`. -/
def shuffle (r : Nat → Nat) (st : GameState) : GameState :=
  { st with bonePile := shuffleAux r (st.bonePile.length - 1) st.bonePile }

/-- The loop of `dealToRack`: `for (i = 0; i < count && pile.length > 0; i++)`
pop the pile's last tile and push it onto the rack.  The `fuel` argument is a
structural bound on the remaining iterations (each popping iteration shrinks
the pile, so the initial pile length suffices); the loop itself stops on
`i ≥ count` or an empty pile exactly as the JS code does. -/
def dealGo (count : ℚ) : Nat → Nat → GameState → GameState × List TileRef
  | 0, _, st => (st, [])
  | fuel + 1, i, st =>
    if (i : ℚ) < count then
      match st.bonePile.getLast? with
      | none => (st, [])
      | some t =>
        let st' : GameState :=
          { bonePile := st.bonePile.dropLast, playerRack := st.playerRack ++ [t] }
        let res := dealGo count fuel (i + 1) st'
        (res.1, t :: res.2)
    else
      (st, [])

/-- `GameState.dealToRack` (the count is a JS number, hence possibly
negative or fractional; the loop index `i` runs over 0, 1, 2, …). -/
def dealToRack (count : ℚ) (st : GameState) : GameState × List TileRef :=
  dealGo count st.bonePile.length 0 st

/-- `GameState.removeDominoFromRack`: `indexOf` finds the first entry that is
the same object (same identity tag); `splice(index, 1)` removes it. -/
def removeDominoFromRack (st : GameState) (t : TileRef) : Bool × GameState :=
  match st.playerRack.findIdx? (fun x => x.id == t.id) with
  | some i => (true, { st with playerRack := st.playerRack.eraseIdx i })
  | none => (false, st)

/-! ## Board (src/src/game/Board.ts) -/

/-- The chain-engine state owned by `Board`: the placed-tile chain, the open
ends and the root index (`-1` while the chain is empty).  Chain entries keep
the identity tag of the tile they were placed from (the TS code stores a
fresh `{left, right, type}` copy; the tag records which rack tile it copies). -/
structure BoardState where
  chain : List TileRef
  openEnds : OpenEnds
  rootIndex : Int
  deriving DecidableEq, Repr

/-- The empty board, as initialised by the `Board` field initialisers. -/
def emptyBoard : BoardState :=
  { chain := [], openEnds := { left := none, right := none }, rootIndex := -1 }

/-- `Board.DOUBLE_HALF_WIDTH`. -/
def DOUBLE_HALF_WIDTH : ℚ := 1 / 2

/-- `Board.REGULAR_HALF_WIDTH`. -/
def REGULAR_HALF_WIDTH : ℚ := 11 / 10

/-- `Board.DOMINO_GAP`. -/
def DOMINO_GAP : ℚ := 1 / 10

/-- The double test used throughout `Board` layout code:
`domino.left === domino.right` (no special-pip exemption here). -/
def isDoubleCode (d : DominoData) : Bool :=
  d.left == d.right

/-- The half-width a chain tile contributes in layout computations. -/
def halfWidth (d : DominoData) : ℚ :=
  if isDoubleCode d then DOUBLE_HALF_WIDTH else REGULAR_HALF_WIDTH

/-- `side === 'left' ? this.openEnds.left : this.openEnds.right`. -/
def openEndAt (b : BoardState) (side : PlacementSide) : Option Int :=
  if side = PlacementSide.left then b.openEnds.left else b.openEnds.right

/-- `Board.isValidPlacement`. -/
def isValidPlacement (b : BoardState) (d : DominoData) (side : PlacementSide) : Bool :=
  if ¬ (side = PlacementSide.left ∨ side = PlacementSide.right) then
    false
  else if b.chain.length = 0 then
    true
  else
    let openEnd := openEndAt b side
    let isWild := d.type == DominoType.wild
    isWild || pipMatches d.left openEnd || pipMatches d.right openEnd

/-- `Board.getPlacementOrientation`: the tile as it would appear if placed
now, with no board mutation (the TS body only reads `this`). -/
def getPlacementOrientation (b : BoardState) (d : DominoData)
    (side : PlacementSide) : DominoData :=
  if b.chain.length = 0 then
    ⟨d.left, d.right, d.type⟩
  else if side = PlacementSide.left then
    if pipMatches d.left b.openEnds.left then
      ⟨d.right, d.left, d.type⟩
    else
      ⟨d.left, d.right, d.type⟩
  else
    if pipMatches d.right b.openEnds.right then
      ⟨d.right, d.left, d.type⟩
    else
      ⟨d.left, d.right, d.type⟩

/-- Statement-faithful state-passing form of `getPlacementOrientation`:
the TS body declares locals and reads the board but contains no assignment
to any `this.*` field, so the outgoing board state is the incoming one. -/
def getPlacementOrientationRun (b : BoardState) (d : DominoData)
    (side : PlacementSide) : BoardState × DominoData :=
  (b, getPlacementOrientation b d side)

/-- The combined mutable state `placeDomino` touches: the board (`this`)
and the game state (`this.gameState`). -/
structure World where
  board : BoardState
  gs : GameState
  deriving DecidableEq, Repr

/-- `Board.placeDomino`, including the defensive rollback path taken when
`removeDominoFromRack` fails. -/
def placeDomino (w : World) (t : TileRef) (side : PlacementSide) : Bool × World :=
  if ¬ (side = PlacementSide.left ∨ side = PlacementSide.right) then
    (false, w)
  else if ¬ isValidPlacement w.board t.data side then
    (false, w)
  else
    let previousOpenEnds := w.board.openEnds
    let previousChainLength := w.board.chain.length
    let previousRootIndex := w.board.rootIndex
    let b := w.board
    let b' : BoardState :=
      if b.chain.length = 0 then
        { chain := b.chain ++ [⟨t.id, ⟨t.data.left, t.data.right, t.data.type⟩⟩],
          openEnds := { left := some t.data.left, right := some t.data.right },
          rootIndex := 0 }
      else if side = PlacementSide.left then
        let od := if pipMatches t.data.left b.openEnds.left then
            (⟨t.data.right, t.data.left, t.data.type⟩ : DominoData)
          else
            ⟨t.data.left, t.data.right, t.data.type⟩
        { chain := ⟨t.id, od⟩ :: b.chain,
          openEnds := { b.openEnds with left := some od.left },
          rootIndex := b.rootIndex + 1 }
      else
        let od := if pipMatches t.data.right b.openEnds.right then
            (⟨t.data.right, t.data.left, t.data.type⟩ : DominoData)
          else
            ⟨t.data.left, t.data.right, t.data.type⟩
        { chain := b.chain ++ [⟨t.id, od⟩],
          openEnds := { b.openEnds with right := some od.right },
          rootIndex := b.rootIndex }
    let rem := removeDominoFromRack w.gs t
    if rem.1 then
      (true, { board := b', gs := rem.2 })
    else
      let rb : BoardState :=
        if previousChainLength = 0 then
          { chain := [], openEnds := previousOpenEnds, rootIndex := previousRootIndex }
        else if side = PlacementSide.left then
          { chain := b'.chain.tail, openEnds := previousOpenEnds, rootIndex := previousRootIndex }
        else
          { chain := b'.chain.dropLast, openEnds := previousOpenEnds, rootIndex := previousRootIndex }
      (false, { board := rb, gs := rem.2 })

/-- The step width accumulated between two neighbouring chain tiles in
`calculateChainPositions`: `prevHalfWidth + currHalfWidth + DOMINO_GAP`. -/
def stepWidth (prev curr : DominoData) : ℚ :=
  halfWidth prev + halfWidth curr + DOMINO_GAP

/-- The position the two loops of `Board.calculateChainPositions` assign to
index `i`, walking outward from the root index `r`. -/
def calcPos (chain : List DominoData) (r : Nat) (i : Nat) : ℚ :=
  if _h : i = r then 0
  else if _h2 : r < i then
    calcPos chain r (i - 1) + stepWidth (chain.getD (i - 1) default) (chain.getD i default)
  else
    calcPos chain r (i + 1) - stepWidth (chain.getD (i + 1) default) (chain.getD i default)
  termination_by (i - r) + (r - i)
  decreasing_by
    · omega
    · omega

/-- `Board.calculateChainPositions`: one x-coordinate per chain tile
(meaningful when `0 ≤ rootIndex < chain.length`, which `placeDomino`
maintains for non-empty chains). -/
def calculateChainPositions (b : BoardState) : List ℚ :=
  if b.chain.length = 0 then []
  else
    (List.range b.chain.length).map
      (calcPos (b.chain.map TileRef.data) b.rootIndex.toNat)

/-- `Board.getPlacementPositions`: anchors just outside each end of the
chain, offset by the end tile's half-width plus the fixed 1.4 clearance. -/
def getPlacementPositions (b : BoardState) : ℚ × ℚ :=
  if b.chain.length = 0 then (0, 0)
  else
    let positions := calculateChainPositions b
    let leftmostPos := positions.getD 0 0
    let rightmostPos := positions.getD (b.chain.length - 1) 0
    let leftmostDomino := (b.chain.getD 0 default).data
    let rightmostDomino := (b.chain.getD (b.chain.length - 1) default).data
    (leftmostPos - halfWidth leftmostDomino - 14 / 10,
     rightmostPos + halfWidth rightmostDomino + 14 / 10)

/-- `Board.dealTilesToRack`: validates the count before any mutation;
`count < 0 ∨ count.den ≠ 1` models `count < 0 || !Number.isInteger(count)`
for a real-valued JS number. -/
def dealTilesToRack (w : World) (count : ℚ) :
    Except String (World × List TileRef) :=
  if count < 0 ∨ count.den ≠ 1 then
    Except.error "Count must be a non-negative integer"
  else
    let res := dealToRack count w.gs
    Except.ok ({ w with gs := res.1 }, res.2)

/-- The state after `dealTilesToRack`: unchanged when the call throws. -/
def dealTilesToRackState (w : World) (count : ℚ) : World :=
  match dealTilesToRack w count with
  | Except.ok p => p.1
  | Except.error _ => w

/-! ## Operation sequences over the full game state -/

/-- One user-level operation on the pool/hand/chain state: a shuffle (with
its stream of random draws), a deal (through `Board.dealTilesToRack`), or a
placement attempt. -/
inductive GameOp where
  | shuffleOp (r : Nat → Nat)
  | dealOp (count : ℚ)
  | placeOp (t : TileRef) (side : PlacementSide)

/-- Apply one operation to the world (a throwing deal leaves it unchanged;
a failing placement rolls back). -/
def applyOp (w : World) : GameOp → World
  | GameOp.shuffleOp r => { w with gs := shuffle r w.gs }
  | GameOp.dealOp count => dealTilesToRackState w count
  | GameOp.placeOp t side => (placeDomino w t side).2

/-! ## Concrete states used to instantiate the theorems -/

/-- The world right after construction: empty board, freshly populated
bone pile, empty rack. -/
def initWorld : World :=
  { board := emptyBoard, gs := { bonePile := initialBonePile, playerRack := [] } }

/-- The worlds reachable from the freshly initialised world by any
sequence of shuffle, deal and place operations. -/
inductive Reachable : World → Prop where
  | init : Reachable initWorld
  | step {w : World} (op : GameOp) : Reachable w → Reachable (applyOp w op)

/-- A one-tile chain `[(3,5)]` with open ends `{left: 3, right: 5}`
(the spec's Scenario A outcome). -/
def sampleBoard : BoardState :=
  { chain := [⟨0, ⟨3, 5, DominoType.standard⟩⟩],
    openEnds := { left := some 3, right := some 5 },
    rootIndex := 0 }

/-- `sampleBoard` together with a rack holding the `(3,6)` tile. -/
def sampleWorld : World :=
  { board := sampleBoard,
    gs := { bonePile := [], playerRack := [⟨1, ⟨3, 6, DominoType.standard⟩⟩] } }

/-- `sampleBoard` with an empty rack: any placement's rack removal fails. -/
def sampleWorldEmptyRack : World :=
  { board := sampleBoard, gs := { bonePile := [], playerRack := [] } }

/-- The world `sampleWorld` becomes when `(3,6)` is placed on the left
(Scenario B): the tile is stored reoriented as `(6,3)`, the root index
shifts to 1, and the rack is emptied. -/
def sampleWorldAfterLeft : World :=
  { board :=
      { chain := [⟨1, ⟨6, 3, DominoType.standard⟩⟩,
          ⟨0, ⟨3, 5, DominoType.standard⟩⟩],
        openEnds := { left := some 6, right := some 5 },
        rootIndex := 1 },
    gs := { bonePile := [], playerRack := [] } }

/-- A chain holding a special `(-1,-1)` wild tile followed by `(3,5)`. -/
def specialChainBoard : BoardState :=
  { chain := [⟨0, ⟨-1, -1, DominoType.wild⟩⟩, ⟨1, ⟨3, 5, DominoType.standard⟩⟩],
    openEnds := { left := some (-1), right := some 5 },
    rootIndex := 0 }

/-- The reachable world obtained from the fresh world by dealing one tile
(the pile's last tile, the `(0,0)` blank-slate, id 37) and placing it on
the left of the empty chain. -/
def reachableOneTileWorld : World :=
  applyOp (applyOp initWorld (GameOp.dealOp 1))
    (GameOp.placeOp ⟨37, ⟨0, 0, DominoType.blankSlate⟩⟩ PlacementSide.left)

/-- The identity tags of every tile object in the world, across pool,
hand and chain (chain entries carry the tag of the rack tile they copy). -/
def idsOf (w : World) : List Nat :=
  (w.gs.bonePile ++ w.gs.playerRack ++ w.board.chain).map TileRef.id

/-! ## Unfolding lemmas for the layout recursion -/

theorem calcPos_self (chain : List DominoData) (r : Nat) :
    calcPos chain r r = 0 := by
  rw [calcPos]
  simp

theorem calcPos_of_gt (chain : List DominoData) (r i : Nat) (h : r < i) :
    calcPos chain r i =
      calcPos chain r (i - 1) +
        stepWidth (chain.getD (i - 1) default) (chain.getD i default) := by
  rw [calcPos]
  have h1 : ¬ i = r := by omega
  simp [h1, h]

theorem calcPos_of_lt (chain : List DominoData) (r i : Nat) (h : i < r) :
    calcPos chain r i =
      calcPos chain r (i + 1) -
        stepWidth (chain.getD (i + 1) default) (chain.getD i default) := by
  rw [calcPos]
  have h1 : ¬ i = r := by omega
  have h2 : ¬ r < i := by omega
  simp [h1, h2]

/-! ## Helper lemmas about the rack operations -/

theorem removeDominoFromRack_of_notMem (st : GameState) (t : TileRef)
    (h : ∀ x ∈ st.playerRack, x.id ≠ t.id) :
    removeDominoFromRack st t = (false, st) := by
  unfold removeDominoFromRack
  have hnone : st.playerRack.findIdx? (fun x => x.id == t.id) = none := by
    rw [List.findIdx?_eq_none_iff]
    intro x hx
    simpa using h x hx
  rw [hnone]

/-- Rack removal failure makes `placeDomino` roll back to the exact
pre-call state and report failure. -/
theorem placeDomino_fail_eq (w : World) (t : TileRef) (side : PlacementSide)
    (h : ∀ x ∈ w.gs.playerRack, x.id ≠ t.id) :
    placeDomino w t side = (false, w) := by
  obtain ⟨⟨chain, oe, ri⟩, gs⟩ := w
  unfold placeDomino
  split
  · rfl
  · split
    · rfl
    · simp only [removeDominoFromRack_of_notMem _ t h]
      by_cases hlen : chain.length = 0
      · have hnil : chain = [] := List.length_eq_zero.mp hlen
        simp [hlen, hnil]
      · by_cases hside : side = PlacementSide.left
        · simp [hlen, hside]
        · simp [hlen, hside, List.dropLast_concat]

/-- Exhaustive description of what `placeDomino` can do to the world:
either it fails and returns the state unchanged, or it removes the rack
entry found by `indexOf` and extends the chain by one tagged copy —
as the sole element (empty chain, root index 0), at the front (left side,
root index incremented) or at the back (right side, root index kept). -/
theorem placeDomino_cases (w : World) (t : TileRef) (side : PlacementSide) :
    placeDomino w t side = (false, w) ∨
    (∃ i, w.gs.playerRack.findIdx? (fun x => x.id == t.id) = some i ∧
      (placeDomino w t side).1 = true ∧
      (placeDomino w t side).2.gs =
        { bonePile := w.gs.bonePile,
          playerRack := w.gs.playerRack.eraseIdx i } ∧
      ((w.board.chain = [] ∧
          (placeDomino w t side).2.board.chain =
            [⟨t.id, ⟨t.data.left, t.data.right, t.data.type⟩⟩] ∧
          (placeDomino w t side).2.board.rootIndex = 0) ∨
        (w.board.chain ≠ [] ∧ side = PlacementSide.left ∧ ∃ od,
          (placeDomino w t side).2.board.chain = ⟨t.id, od⟩ :: w.board.chain ∧
          (placeDomino w t side).2.board.rootIndex = w.board.rootIndex + 1) ∨
        (w.board.chain ≠ [] ∧ side ≠ PlacementSide.left ∧ ∃ od,
          (placeDomino w t side).2.board.chain = w.board.chain ++ [⟨t.id, od⟩] ∧
          (placeDomino w t side).2.board.rootIndex = w.board.rootIndex))) := by
  by_cases hmem : ∀ x ∈ w.gs.playerRack, x.id ≠ t.id
  · left
    exact placeDomino_fail_eq w t side hmem
  · obtain ⟨i, hremi⟩ : ∃ i,
        w.gs.playerRack.findIdx? (fun x => x.id == t.id) = some i := by
      cases hcase : w.gs.playerRack.findIdx? (fun x => x.id == t.id) with
      | some j => exact ⟨j, rfl⟩
      | none =>
        exfalso
        apply hmem
        intro x hx
        have := List.findIdx?_eq_none_iff.mp hcase x hx
        simpa using this
    obtain ⟨⟨chain, oe, ri⟩, gs⟩ := w
    simp only at hremi
    by_cases hside : side = PlacementSide.left ∨ side = PlacementSide.right
    · by_cases hvalid : isValidPlacement ⟨chain, oe, ri⟩ t.data side = true
      · right
        refine ⟨i, hremi, ?_⟩
        have hrem : removeDominoFromRack gs t =
            (true, ⟨gs.bonePile, gs.playerRack.eraseIdx i⟩) := by
          unfold removeDominoFromRack
          rw [hremi]
        simp only [placeDomino, hrem, not_true, not_false_iff, hside,
          hvalid, if_neg, ite_true, ite_false, not_not]
        refine ⟨trivial, trivial, ?_⟩
        by_cases hlen : chain.length = 0
        · have hnil : chain = [] := List.length_eq_zero.mp hlen
          subst hnil
          left
          simp
        · have hne : chain ≠ [] := by simpa [List.length_eq_zero] using hlen
          rcases hside with rfl | rfl
          · right
            left
            refine ⟨hne, rfl, ?_⟩
            rw [if_neg hlen, if_pos rfl]
            exact ⟨_, rfl, rfl⟩
          · right
            right
            refine ⟨hne, by decide, ?_⟩
            rw [if_neg hlen,
              if_neg (by decide : ¬ (PlacementSide.right = PlacementSide.left))]
            exact ⟨_, rfl, rfl⟩
      · left
        simp only [placeDomino]
        rw [if_neg (not_not_intro hside), if_pos (by simpa using hvalid)]
    · left
      simp only [placeDomino]
      rw [if_pos hside]

/-- Neither a throwing nor a successful deal touches the board. -/
theorem dealTilesToRackState_board (w : World) (count : ℚ) :
    (dealTilesToRackState w count).board = w.board := by
  unfold dealTilesToRackState dealTilesToRack
  by_cases h : count < 0 ∨ count.den ≠ 1
  · rw [if_pos h]
  · rw [if_neg h]

/-- Along every reachable world, a non-empty chain has its root index
inside the chain: `0 ≤ rootIndex < chain.length`. -/
theorem reachable_rootIndex_bounds {w : World} (hr : Reachable w) :
    w.board.chain ≠ [] →
    0 ≤ w.board.rootIndex ∧ w.board.rootIndex.toNat < w.board.chain.length := by
  induction hr with
  | init =>
    intro h
    exact absurd rfl h
  | step op _ ih =>
    rename_i w _
    cases op with
    | shuffleOp r =>
      simpa [applyOp, shuffle] using ih
    | dealOp count =>
      simpa only [applyOp, dealTilesToRackState_board] using ih
    | placeOp t side =>
      simp only [applyOp]
      rcases placeDomino_cases w t side with hfail | ⟨i, _, _, _, hcases⟩
      · rw [hfail]
        exact ih
      · intro _
        rcases hcases with ⟨_, hchain, hroot⟩ |
          ⟨hne0, _, od, hchain, hroot⟩ | ⟨hne0, _, od, hchain, hroot⟩
        · rw [hchain, hroot]
          simp
        · obtain ⟨h0, hlt⟩ := ih hne0
          rw [hchain, hroot]
          simp only [List.length_cons]
          omega
        · obtain ⟨h0, hlt⟩ := ih hne0
          rw [hchain, hroot]
          simp only [List.length_append, List.length_cons, List.length_nil]
          omega

/-! ## Permutation lemmas for the conservation invariant -/

theorem get_cons_set_perm (b : TileRef) :
    ∀ (l : List TileRef) (j : Nat) (a : TileRef), l.get? j = some a →
      List.Perm (a :: l.set j b) (b :: l) := by
  intro l
  induction l with
  | nil =>
    intro j a h
    simp at h
  | cons x xs ih =>
    intro j a h
    cases j with
    | zero =>
      simp only [List.get?] at h
      injection h with h
      subst h
      exact List.Perm.swap _ _ _
    | succ j =>
      simp only [List.get?] at h
      simp only [List.set]
      have p1 : List.Perm (a :: x :: xs.set j b) (x :: a :: xs.set j b) :=
        List.Perm.swap x a _
      have p2 : List.Perm (x :: a :: xs.set j b) (x :: (b :: xs)) :=
        List.Perm.cons x (ih j a h)
      have p3 : List.Perm (x :: b :: xs) (b :: x :: xs) := List.Perm.swap b x xs
      exact (p1.trans p2).trans p3

theorem swapIdx_perm (l : List TileRef) (i j : Nat) :
    List.Perm (swapIdx l i j) l := by
  unfold swapIdx
  split
  · rename_i a b h1 h2
    have hjlt : j < l.length := (List.get?_eq_some.mp h2).1
    have h2' : (l.set i b).get? j = some b := by
      by_cases hij : i = j
      · subst hij
        rw [List.get?_eq_getElem?]
        simp [List.getElem?_set_self', hjlt]
      · rw [List.get?_eq_getElem?, List.getElem?_set_ne hij,
          ← List.get?_eq_getElem?]
        exact h2
    have p1 : List.Perm (a :: l.set i b) (b :: l) :=
      get_cons_set_perm b l i a h1
    have p2 : List.Perm (b :: (l.set i b).set j a) (a :: l.set i b) :=
      get_cons_set_perm a (l.set i b) j b h2'
    exact List.Perm.cons_inv (p2.trans p1)
  · exact List.Perm.refl l

theorem shuffleAux_perm (r : Nat → Nat) :
    ∀ (n : Nat) (l : List TileRef), List.Perm (shuffleAux r n l) l := by
  intro n
  induction n with
  | zero =>
    intro l
    exact List.Perm.refl l
  | succ n ih =>
    intro l
    exact (ih _).trans (swapIdx_perm l (n + 1) (r (n + 1) % (n + 2)))

/-- The deal loop conserves the pool-plus-hand multiset. -/
theorem dealGo_union_perm (count : ℚ) :
    ∀ (fuel i : Nat) (st : GameState),
      List.Perm
        ((dealGo count fuel i st).1.bonePile ++
          (dealGo count fuel i st).1.playerRack)
        (st.bonePile ++ st.playerRack) := by
  intro fuel
  induction fuel with
  | zero =>
    intro i st
    exact List.Perm.refl _
  | succ n ih =>
    intro i st
    rw [dealGo]
    split
    · split
      · exact List.Perm.refl _
      · rename_i t hl
        have hpile : st.bonePile.dropLast ++ [t] = st.bonePile :=
          List.dropLast_append_getLast? t hl
        refine (ih (i + 1)
          ⟨st.bonePile.dropLast, st.playerRack ++ [t]⟩).trans ?_
        have p1 : List.Perm (st.playerRack ++ [t]) ([t] ++ st.playerRack) :=
          List.perm_append_comm
        have p2 := List.Perm.append_left st.bonePile.dropLast p1
        refine p2.trans ?_
        rw [← List.append_assoc, hpile]
    · exact List.Perm.refl _

/-- A successful `indexOf`/`splice` removal is, up to permutation, the
extraction of one matching element. -/
theorem findIdx?_eraseIdx_perm (p : TileRef → Bool) :
    ∀ (l : List TileRef) (i : Nat), l.findIdx? p = some i →
      ∃ a, p a = true ∧ List.Perm l (a :: l.eraseIdx i) := by
  intro l
  induction l with
  | nil =>
    intro i h
    simp at h
  | cons x xs ih =>
    intro i h
    rw [List.findIdx?_cons] at h
    by_cases hp : p x = true
    · rw [if_pos hp] at h
      injection h with h
      subst h
      exact ⟨x, hp, List.Perm.refl _⟩
    · rw [if_neg hp, List.findIdx?_succ] at h
      cases hx : xs.findIdx? p with
      | none =>
        rw [hx] at h
        simp at h
      | some j =>
        rw [hx] at h
        have h2 : j + 1 = i := by simpa using h
        subst h2
        obtain ⟨a, hpa, hperm⟩ := ih j hx
        refine ⟨a, hpa, ?_⟩
        have p1 : List.Perm (x :: xs) (x :: (a :: xs.eraseIdx j)) :=
          List.Perm.cons x hperm
        have p2 : List.Perm (x :: a :: xs.eraseIdx j)
            (a :: x :: xs.eraseIdx j) := List.Perm.swap a x _
        exact p1.trans p2

/-- Append a fresh element on the right, remove one in the middle: the
basic shapes used below, combined into one reusable step. -/
theorem perm_erase_insert (pile rackErase chain extra : List Nat) (n : Nat)
    (rack : List Nat) (hrack : List.Perm rack (n :: rackErase)) :
    List.Perm (pile ++ rackErase ++ (extra ++ [n] ++ chain))
      (pile ++ rack ++ (extra ++ chain)) := by
  have p1 : List.Perm (extra ++ [n] ++ chain) (n :: (extra ++ chain)) := by
    rw [List.append_assoc]
    exact List.perm_middle
  have p2 : List.Perm (pile ++ rackErase ++ (extra ++ [n] ++ chain))
      (pile ++ rackErase ++ (n :: (extra ++ chain))) :=
    List.Perm.append_left _ p1
  refine p2.trans ?_
  have p3 : List.Perm (pile ++ rackErase ++ (n :: (extra ++ chain)))
      (n :: (pile ++ rackErase ++ (extra ++ chain))) := List.perm_middle
  refine p3.trans ?_
  have p4 : List.Perm (n :: rackErase) rack := hrack.symm
  have p5 : List.Perm (n :: (pile ++ rackErase ++ (extra ++ chain)))
      (n :: (pile ++ (rackErase ++ (extra ++ chain)))) := by
    rw [List.append_assoc]
  refine p5.trans ?_
  have p6 : List.Perm (n :: (pile ++ (rackErase ++ (extra ++ chain))))
      (pile ++ (n :: (rackErase ++ (extra ++ chain)))) :=
    List.perm_middle.symm
  refine p6.trans ?_
  have p7 : List.Perm (n :: (rackErase ++ (extra ++ chain)))
      ((n :: rackErase) ++ (extra ++ chain)) := List.Perm.refl _
  have p8 : List.Perm ((n :: rackErase) ++ (extra ++ chain))
      (rack ++ (extra ++ chain)) := p4.append_right _
  have p9 : List.Perm (n :: (rackErase ++ (extra ++ chain)))
      (rack ++ (extra ++ chain)) := p7.trans p8
  refine (List.Perm.append_left pile p9).trans ?_
  rw [List.append_assoc]

/-- Every single operation conserves the multiset of tile identities
spread over pool, hand and chain. -/
theorem applyOp_idsOf_perm (w : World) (op : GameOp) :
    List.Perm (idsOf (applyOp w op)) (idsOf w) := by
  cases op with
  | shuffleOp r =>
    simp only [applyOp]
    unfold idsOf shuffle
    exact List.Perm.map _
      (((shuffleAux_perm r _ w.gs.bonePile).append_right _).append_right _)
  | dealOp count =>
    simp only [applyOp]
    unfold dealTilesToRackState dealTilesToRack
    by_cases h : count < 0 ∨ count.den ≠ 1
    · rw [if_pos h]
    · rw [if_neg h]
      unfold idsOf
      exact List.Perm.map _
        ((dealGo_union_perm count _ 0 w.gs).append_right _)
  | placeOp t side =>
    rcases placeDomino_cases w t side with hfail | ⟨i, hfind, _, hgs, hcases⟩
    · simp only [applyOp]
      rw [hfail]
    · obtain ⟨a, hpa, hperm⟩ := findIdx?_eraseIdx_perm _ _ i hfind
      have haid : a.id = t.id := by simpa using hpa
      have hrackIds : List.Perm (w.gs.playerRack.map TileRef.id)
          (t.id :: (w.gs.playerRack.eraseIdx i).map TileRef.id) := by
        have hm := hperm.map TileRef.id
        simpa [haid] using hm
      simp only [applyOp]
      unfold idsOf
      rw [hgs]
      rcases hcases with ⟨hnil, hchain, _⟩ |
        ⟨_, _, od, hchain, _⟩ | ⟨_, _, od, hchain, _⟩
      · rw [hchain, hnil]
        simp only [List.map_append, List.map_cons, List.map_nil]
        have := perm_erase_insert (w.gs.bonePile.map TileRef.id)
          ((w.gs.playerRack.eraseIdx i).map TileRef.id) [] [] t.id
          (w.gs.playerRack.map TileRef.id) hrackIds
        simpa using this
      · rw [hchain]
        simp only [List.map_append, List.map_cons]
        have := perm_erase_insert (w.gs.bonePile.map TileRef.id)
          ((w.gs.playerRack.eraseIdx i).map TileRef.id)
          (w.board.chain.map TileRef.id) [] t.id
          (w.gs.playerRack.map TileRef.id) hrackIds
        simpa using this
      · rw [hchain]
        simp only [List.map_append, List.map_cons, List.map_nil]
        have := perm_erase_insert (w.gs.bonePile.map TileRef.id)
          ((w.gs.playerRack.eraseIdx i).map TileRef.id) []
          (w.board.chain.map TileRef.id) t.id
          (w.gs.playerRack.map TileRef.id) hrackIds
        simpa using this

theorem reachable_idsOf_perm {w : World} (hr : Reachable w) :
    List.Perm (idsOf w) (idsOf initWorld) := by
  induction hr with
  | init => exact List.Perm.refl _
  | step op _ ih =>
    exact (applyOp_idsOf_perm _ op).trans ih

theorem idsOf_initWorld_eq_range :
    idsOf initWorld = List.range initialBoneData.length := by
  unfold idsOf initWorld emptyBoard initialBonePile
  simp only [List.append_nil, List.map_map]
  exact List.enum_map_fst initialBoneData

/-! ## Claims -/

/-- C1 (rollback atomicity): for every chain state and tile, if the
hand-removal step fails during `placeDomino` (the tile is not in the rack,
so `removeDominoFromRack` returns `false`), then the call returns `false`
and the chain length, the chain contents, the open ends and the root index
equal their values immediately before the call. -/
theorem c1_rollback_atomicity (w : World) (t : TileRef) (side : PlacementSide)
    (hfail : ∀ x ∈ w.gs.playerRack, x.id ≠ t.id) :
    (placeDomino w t side).1 = false ∧
    (placeDomino w t side).2.board.chain.length = w.board.chain.length ∧
    (placeDomino w t side).2.board.chain = w.board.chain ∧
    (placeDomino w t side).2.board.openEnds = w.board.openEnds ∧
    (placeDomino w t side).2.board.rootIndex = w.board.rootIndex := by
  rw [placeDomino_fail_eq w t side hfail]
  exact ⟨rfl, rfl, rfl, rfl, rfl⟩

/-- Witness for C1: on the `(3,5)` one-tile chain with an empty rack,
placing `(3,6)` on the left fails and leaves chain, open ends and root
index untouched. -/
theorem c1_rollback_atomicity_witness :
    (∀ x ∈ sampleWorldEmptyRack.gs.playerRack,
      x.id ≠ (⟨9, ⟨3, 6, DominoType.standard⟩⟩ : TileRef).id) ∧
    ((placeDomino sampleWorldEmptyRack ⟨9, ⟨3, 6, DominoType.standard⟩⟩
        PlacementSide.left).1 = false ∧
      (placeDomino sampleWorldEmptyRack ⟨9, ⟨3, 6, DominoType.standard⟩⟩
        PlacementSide.left).2.board.chain.length =
          sampleWorldEmptyRack.board.chain.length ∧
      (placeDomino sampleWorldEmptyRack ⟨9, ⟨3, 6, DominoType.standard⟩⟩
        PlacementSide.left).2.board.chain = sampleWorldEmptyRack.board.chain ∧
      (placeDomino sampleWorldEmptyRack ⟨9, ⟨3, 6, DominoType.standard⟩⟩
        PlacementSide.left).2.board.openEnds = sampleWorldEmptyRack.board.openEnds ∧
      (placeDomino sampleWorldEmptyRack ⟨9, ⟨3, 6, DominoType.standard⟩⟩
        PlacementSide.left).2.board.rootIndex = sampleWorldEmptyRack.board.rootIndex) :=
  ⟨by decide,
   c1_rollback_atomicity sampleWorldEmptyRack ⟨9, ⟨3, 6, DominoType.standard⟩⟩
     PlacementSide.left (by decide)⟩

/-- C2 (wildcard universality) is violated by the code: `isValidPlacement`
only treats kind `wild` as a wildcard (`dominoData.type === 'wild'`), so a
`crusher` tile — a wildcard kind per `WILDCARD_TYPES` and its doc comment
"Tile types that act as wildcards for matching" — is rejected on both sides
of a non-empty chain whose open ends do not equal its pips. -/
theorem c2_wildcard_universality_code_bug :
    isWildcardType DominoType.crusher = true ∧
    sampleBoard.chain ≠ [] ∧
    isValidPlacement sampleBoard ⟨-1, -1, DominoType.crusher⟩
      PlacementSide.left = false ∧
    isValidPlacement sampleBoard ⟨-1, -1, DominoType.crusher⟩
      PlacementSide.right = false := by
  refine ⟨by decide, by decide, by decide, by decide⟩

/-- C3 (matching rule): on a non-empty chain, a non-wildcard tile is a
valid placement on side `s` exactly when one of its pips equals the open
end on that side. -/
theorem c3_matching_rule (b : BoardState) (d : DominoData) (s : PlacementSide)
    (v : Int) (hne : b.chain ≠ [])
    (hw : isWildcardType d.type = false)
    (hs : s = PlacementSide.left ∨ s = PlacementSide.right)
    (hv : openEndAt b s = some v) :
    (isValidPlacement b d s = true ↔ (d.left = v ∨ d.right = v)) := by
  have hlen : ¬ b.chain.length = 0 := by
    simpa [List.length_eq_zero] using hne
  have hwild : d.type ≠ DominoType.wild := by
    intro hEq
    rw [hEq] at hw
    simp [isWildcardType, WILDCARD_TYPES] at hw
  rcases hs with rfl | rfl
  · have hv' : b.openEnds.left = some v := by simpa [openEndAt] using hv
    simp [isValidPlacement, hlen, openEndAt, hv', pipMatches, hwild]
  · have hv' : b.openEnds.right = some v := by simpa [openEndAt] using hv
    simp [isValidPlacement, hlen, openEndAt, hv', pipMatches, hwild]

/-- Witness for C3: the standard `(3,6)` tile on the left of the `(3,5)`
chain, where the open end is 3. -/
theorem c3_matching_rule_witness :
    (sampleBoard.chain ≠ [] ∧
      isWildcardType DominoType.standard = false ∧
      openEndAt sampleBoard PlacementSide.left = some 3) ∧
    (isValidPlacement sampleBoard ⟨3, 6, DominoType.standard⟩
        PlacementSide.left = true ↔ ((3 : Int) = 3 ∨ (6 : Int) = 3)) :=
  ⟨⟨by decide, by decide, by decide⟩,
   c3_matching_rule sampleBoard ⟨3, 6, DominoType.standard⟩ PlacementSide.left 3
     (by decide) (by decide) (Or.inl rfl) (by decide)⟩

/-- C6 counterexample: `PlacementSide` also contains `center`, and
`isValidPlacement` returns `false` for it even on the empty chain, so the
claim quantified over every side fails at `side = center`. -/
theorem c6_empty_chain_center_counterexample :
    emptyBoard.chain = [] ∧
    isValidPlacement emptyBoard ⟨3, 5, DominoType.standard⟩
      PlacementSide.center = false := by
  refine ⟨rfl, by decide⟩

/-- C6 as amended: for every tile and every side in `{left, right}`,
`isValidPlacement` returns `true` when the chain is empty. -/
theorem c6_empty_chain_acceptance (b : BoardState) (d : DominoData)
    (s : PlacementSide) (hb : b.chain = [])
    (hs : s = PlacementSide.left ∨ s = PlacementSide.right) :
    isValidPlacement b d s = true := by
  rcases hs with rfl | rfl <;> simp [isValidPlacement, hb]

/-- Witness for C6: any tile is accepted on the left of the empty board. -/
theorem c6_empty_chain_acceptance_witness :
    emptyBoard.chain = [] ∧
    isValidPlacement emptyBoard ⟨6, 2, DominoType.thief⟩
      PlacementSide.left = true :=
  ⟨rfl,
   c6_empty_chain_acceptance emptyBoard ⟨6, 2, DominoType.thief⟩
     PlacementSide.left rfl (Or.inl rfl)⟩

/-- C8 (deal argument validation): for every state, `dealTilesToRack` with
a negative or non-integer count signals the `InvalidArgument` error and
performs no mutation (the validation precedes every state change). -/
theorem c8_deal_validation (w : World) (count : ℚ)
    (h : count < 0 ∨ count.den ≠ 1) :
    dealTilesToRack w count = Except.error "Count must be a non-negative integer" ∧
    dealTilesToRackState w count = w := by
  constructor
  · unfold dealTilesToRack
    rw [if_pos h]
  · unfold dealTilesToRackState dealTilesToRack
    rw [if_pos h]

/-- C4 (orientation correctness): when `placeDomino` succeeds on a
non-empty chain, the tile stored in the chain carries exactly the oriented
pips `getPlacementOrientation` would return for the pre-placement state,
and — whenever at least one pip of the tile equals the pre-placement open
end `E` on the chosen side — the new open end on that side is the pip that
was not equal to `E` (the same value when both pips equal `E`). -/
theorem c4_orientation_correctness (w : World) (t : TileRef)
    (s : PlacementSide) (E : Int) (w' : World)
    (hne : w.board.chain ≠ [])
    (hs : s = PlacementSide.left ∨ s = PlacementSide.right)
    (hE : openEndAt w.board s = some E)
    (hsucc : placeDomino w t s = (true, w')) :
    ((s = PlacementSide.left →
        w'.board.chain.head? =
          some ⟨t.id, getPlacementOrientation w.board t.data s⟩) ∧
      (s = PlacementSide.right →
        w'.board.chain.getLast? =
          some ⟨t.id, getPlacementOrientation w.board t.data s⟩)) ∧
    ((t.data.left = E ∨ t.data.right = E) →
      openEndAt w'.board s =
        some (if s = PlacementSide.left then
                if t.data.left = E then t.data.right else t.data.left
              else
                if t.data.right = E then t.data.left else t.data.right)) := by
  obtain ⟨⟨chain, oe, ri⟩, gs⟩ := w
  have hlen : ¬ chain.length = 0 := by
    simpa [List.length_eq_zero] using hne
  rcases hs with rfl | rfl
  · have hv : oe.left = some E := by simpa [openEndAt] using hE
    simp only [placeDomino, isValidPlacement] at hsucc
    simp only [hlen, if_false, ite_false, ite_true, eq_self_iff_true,
      not_true, not_false_iff, or_true, true_or, if_true, not_or] at hsucc
    split at hsucc
    · exact absurd (congrArg Prod.fst hsucc) (by simp)
    · split at hsucc
      · have hw' := congrArg Prod.snd hsucc
        simp only at hw'
        subst hw'
        constructor
        · constructor
          · intro _
            simp [getPlacementOrientation, hlen, hv]
          · intro hLR
            exact absurd hLR (by decide)
        · intro hmatch
          by_cases hl : t.data.left = E
          · simp [openEndAt, hv, pipMatches, hl]
          · simp [openEndAt, hv, pipMatches, hl]
      · exact absurd (congrArg Prod.fst hsucc) (by simp)
  · have hv : oe.right = some E := by simpa [openEndAt] using hE
    simp only [placeDomino, isValidPlacement] at hsucc
    simp only [hlen, if_false, ite_false, ite_true, eq_self_iff_true,
      not_true, not_false_iff, or_true, true_or, if_true, not_or] at hsucc
    split at hsucc
    · exact absurd (congrArg Prod.fst hsucc) (by simp)
    · split at hsucc
      · have hw' := congrArg Prod.snd hsucc
        simp only at hw'
        subst hw'
        constructor
        · constructor
          · intro hLR
            exact absurd hLR (by decide)
          · intro _
            simp [getPlacementOrientation, hlen, hv, List.getLast?_concat]
        · intro hmatch
          by_cases hr : t.data.right = E
          · simp [openEndAt, hv, pipMatches, hr]
          · simp [openEndAt, hv, pipMatches, hr]
      · exact absurd (congrArg Prod.fst hsucc) (by simp)

/-- Witness for C4: placing `(3,6)` on the left of the `(3,5)` chain
(the spec's Scenario B): the stored tile is the reoriented `(6,3)` and the
new left open end is 6. -/
theorem c4_orientation_correctness_witness :
    (sampleWorld.board.chain ≠ [] ∧
      openEndAt sampleWorld.board PlacementSide.left = some 3 ∧
      placeDomino sampleWorld ⟨1, ⟨3, 6, DominoType.standard⟩⟩
          PlacementSide.left = (true, sampleWorldAfterLeft)) ∧
    (((PlacementSide.left = PlacementSide.left →
        sampleWorldAfterLeft.board.chain.head? =
          some ⟨1, getPlacementOrientation sampleWorld.board
            ⟨3, 6, DominoType.standard⟩ PlacementSide.left⟩) ∧
      (PlacementSide.left = PlacementSide.right →
        sampleWorldAfterLeft.board.chain.getLast? =
          some ⟨1, getPlacementOrientation sampleWorld.board
            ⟨3, 6, DominoType.standard⟩ PlacementSide.left⟩)) ∧
      (((3 : Int) = 3 ∨ (6 : Int) = 3) →
        openEndAt sampleWorldAfterLeft.board PlacementSide.left =
          some (if PlacementSide.left = PlacementSide.left then
                  if (3 : Int) = 3 then (6 : Int) else 3
                else
                  if (6 : Int) = 3 then 3 else 6))) :=
  ⟨⟨by decide, by decide, by decide⟩,
   c4_orientation_correctness sampleWorld ⟨1, ⟨3, 6, DominoType.standard⟩⟩
     PlacementSide.left 3 sampleWorldAfterLeft (by decide) (Or.inl rfl)
     (by decide) (by decide)⟩

/-- C10 (preview purity and copy-on-place): `getPlacementOrientation`
performs no state write (its state-passing form returns the incoming board
unchanged, so repeated calls agree), and a successful `placeDomino` leaves
the pool untouched, leaves the rack a sublist of the old rack (surviving
rack tiles are the very same objects, pips unswapped), and extends the
chain by exactly one entry: a copy of the placed tile carrying the pips
`getPlacementOrientation` reports for the pre-placement state. -/
theorem c10_preview_purity_and_copy (w : World) (t : TileRef)
    (s : PlacementSide) (w' : World)
    (hsucc : placeDomino w t s = (true, w')) :
    (getPlacementOrientationRun w.board t.data s).1 = w.board ∧
    List.Sublist w'.gs.playerRack w.gs.playerRack ∧
    w'.gs.bonePile = w.gs.bonePile ∧
    (w'.board.chain =
        ⟨t.id, getPlacementOrientation w.board t.data s⟩ :: w.board.chain ∨
      w'.board.chain =
        w.board.chain ++ [⟨t.id, getPlacementOrientation w.board t.data s⟩]) := by
  refine ⟨rfl, ?_⟩
  obtain ⟨⟨chain, oe, ri⟩, gs⟩ := w
  simp only [placeDomino] at hsucc
  split at hsucc
  · exact absurd (congrArg Prod.fst hsucc) (by simp)
  · split at hsucc
    · exact absurd (congrArg Prod.fst hsucc) (by simp)
    · rename_i hside hvalid
      rw [not_not] at hvalid
      obtain ⟨i, hremi⟩ : ∃ i,
          gs.playerRack.findIdx? (fun x => x.id == t.id) = some i := by
        by_cases hex : ∃ i,
            gs.playerRack.findIdx? (fun x => x.id == t.id) = some i
        · exact hex
        · exfalso
          have hnone : gs.playerRack.findIdx? (fun x => x.id == t.id) = none := by
            cases hcase : gs.playerRack.findIdx? (fun x => x.id == t.id) with
            | none => rfl
            | some j => exact absurd ⟨j, hcase⟩ hex
          rw [show removeDominoFromRack ⟨gs.bonePile, gs.playerRack⟩ t =
              (false, ⟨gs.bonePile, gs.playerRack⟩) by
            unfold removeDominoFromRack
            rw [hnone]] at hsucc
          simp only [ite_false, Bool.false_eq_true, if_false] at hsucc
          exact absurd (congrArg Prod.fst hsucc) (by simp)
      rw [show removeDominoFromRack ⟨gs.bonePile, gs.playerRack⟩ t =
          (true, ⟨gs.bonePile, gs.playerRack.eraseIdx i⟩) by
        unfold removeDominoFromRack
        rw [hremi]] at hsucc
      simp only [ite_true, if_true] at hsucc
      have hw' := congrArg Prod.snd hsucc
      simp only at hw'
      subst hw'
      refine ⟨List.eraseIdx_sublist _ i, rfl, ?_⟩
      by_cases hlen : chain.length = 0
      · have hnil : chain = [] := List.length_eq_zero.mp hlen
        subst hnil
        right
        simp [getPlacementOrientation]
      · by_cases hL : s = PlacementSide.left
        · subst hL
          left
          simp [hlen, getPlacementOrientation]
        · right
          simp only [hlen, if_false, ite_false, hL]
          rcases hside' : s with _ | _ | _
          · exact absurd hside' hL
          · simp [getPlacementOrientation, hlen, hL]
          · exact absurd (by rw [hside'] at hside; exact hside) (by simp [hside'])

/-- C9 (pool/hand/chain partition): in every world reachable from the
freshly initialised state by shuffles, deals and placements, the identity
tags across pool, hand and chain are a permutation of the freshly
generated ones, and every originally generated tile occurs exactly once in
the union. -/
theorem c9_pool_hand_chain_partition (w : World) (hr : Reachable w) :
    List.Perm (idsOf w) (idsOf initWorld) ∧
    ∀ n ∈ idsOf initWorld, (idsOf w).count n = 1 := by
  have hperm := reachable_idsOf_perm hr
  refine ⟨hperm, ?_⟩
  intro n hn
  rw [hperm.count_eq]
  have hnodup : (idsOf initWorld).Nodup := by
    rw [idsOf_initWorld_eq_range]
    exact List.nodup_range _
  exact List.count_eq_one_of_mem hnodup hn

/-- Witness for C9: the reachable world obtained by dealing one tile and
placing it still holds each of the 38 generated tiles exactly once. -/
theorem c9_pool_hand_chain_partition_witness :
    Reachable reachableOneTileWorld ∧
    (List.Perm (idsOf reachableOneTileWorld) (idsOf initWorld) ∧
      ∀ n ∈ idsOf initWorld, (idsOf reachableOneTileWorld).count n = 1) := by
  have hreach : Reachable reachableOneTileWorld := by
    unfold reachableOneTileWorld
    exact Reachable.step _ (Reachable.step _ Reachable.init)
  exact ⟨hreach, c9_pool_hand_chain_partition reachableOneTileWorld hreach⟩

/-- Witness for C10: the Scenario-B placement `(3,6)` on the left of the
`(3,5)` chain. -/
theorem c10_preview_purity_and_copy_witness :
    placeDomino sampleWorld ⟨1, ⟨3, 6, DominoType.standard⟩⟩
        PlacementSide.left = (true, sampleWorldAfterLeft) ∧
    ((getPlacementOrientationRun sampleWorld.board ⟨3, 6, DominoType.standard⟩
        PlacementSide.left).1 = sampleWorld.board ∧
      List.Sublist sampleWorldAfterLeft.gs.playerRack sampleWorld.gs.playerRack ∧
      sampleWorldAfterLeft.gs.bonePile = sampleWorld.gs.bonePile ∧
      (sampleWorldAfterLeft.board.chain =
          ⟨1, getPlacementOrientation sampleWorld.board
            ⟨3, 6, DominoType.standard⟩ PlacementSide.left⟩ ::
            sampleWorld.board.chain ∨
        sampleWorldAfterLeft.board.chain =
          sampleWorld.board.chain ++
            [⟨1, getPlacementOrientation sampleWorld.board
              ⟨3, 6, DominoType.standard⟩ PlacementSide.left⟩])) :=
  ⟨by decide,
   c10_preview_purity_and_copy sampleWorld ⟨1, ⟨3, 6, DominoType.standard⟩⟩
     PlacementSide.left sampleWorldAfterLeft (by decide)⟩

/-- C5 (root anchor invariance): in every reachable world with a non-empty
chain (any sequence of shuffles, deals and placements from the fresh
state), the layout assigns position 0 to `chain[rootIndex]`, covers every
chain index, and walks outward from the root accumulating
`prevHalfWidth + currHalfWidth + gap` per step: rightward entries exceed
their left neighbour by exactly that step, leftward entries fall short of
their right neighbour by it. -/
theorem c5_root_anchor_invariance (w : World) (hr : Reachable w)
    (hne : w.board.chain ≠ []) :
    w.board.rootIndex = (w.board.rootIndex.toNat : Int) ∧
    (calculateChainPositions w.board).length = w.board.chain.length ∧
    (calculateChainPositions w.board)[w.board.rootIndex.toNat]? = some 0 ∧
    (∀ i, w.board.rootIndex.toNat < i → i < w.board.chain.length →
      ∃ xc xp, (calculateChainPositions w.board)[i]? = some xc ∧
        (calculateChainPositions w.board)[i - 1]? = some xp ∧
        xc = xp + stepWidth
          ((w.board.chain.map TileRef.data).getD (i - 1) default)
          ((w.board.chain.map TileRef.data).getD i default)) ∧
    (∀ i, i < w.board.rootIndex.toNat →
      ∃ xc xn, (calculateChainPositions w.board)[i]? = some xc ∧
        (calculateChainPositions w.board)[i + 1]? = some xn ∧
        xc = xn - stepWidth
          ((w.board.chain.map TileRef.data).getD (i + 1) default)
          ((w.board.chain.map TileRef.data).getD i default)) := by
  obtain ⟨h0, hlt⟩ := reachable_rootIndex_bounds hr hne
  have hlen0 : ¬ w.board.chain.length = 0 := by
    simpa [List.length_eq_zero] using hne
  have hps : calculateChainPositions w.board =
      (List.range w.board.chain.length).map
        (calcPos (w.board.chain.map TileRef.data) w.board.rootIndex.toNat) := by
    unfold calculateChainPositions
    rw [if_neg hlen0]
  have hget : ∀ i, i < w.board.chain.length →
      (calculateChainPositions w.board)[i]? =
        some (calcPos (w.board.chain.map TileRef.data)
          w.board.rootIndex.toNat i) := by
    intro i hi
    rw [hps]
    simp [List.getElem?_map, List.getElem?_range, hi]
  refine ⟨(Int.toNat_of_nonneg h0).symm, ?_, ?_, ?_, ?_⟩
  · rw [hps]
    simp
  · rw [hget _ hlt, calcPos_self]
  · intro i hgt hi
    exact ⟨_, _, hget i hi, hget (i - 1) (by omega),
      calcPos_of_gt _ _ _ hgt⟩
  · intro i hlt2
    exact ⟨_, _, hget i (by omega), hget (i + 1) (by omega),
      calcPos_of_lt _ _ _ hlt2⟩

/-- Witness for C5: the reachable one-tile world obtained by dealing one
tile from the fresh pile and placing it on the left. -/
theorem c5_root_anchor_invariance_witness :
    Reachable reachableOneTileWorld ∧
    reachableOneTileWorld.board.chain ≠ [] ∧
    (reachableOneTileWorld.board.rootIndex =
        (reachableOneTileWorld.board.rootIndex.toNat : Int) ∧
      (calculateChainPositions reachableOneTileWorld.board).length =
        reachableOneTileWorld.board.chain.length ∧
      (calculateChainPositions
          reachableOneTileWorld.board)[reachableOneTileWorld.board.rootIndex.toNat]? =
        some 0 ∧
      (∀ i, reachableOneTileWorld.board.rootIndex.toNat < i →
          i < reachableOneTileWorld.board.chain.length →
        ∃ xc xp,
          (calculateChainPositions reachableOneTileWorld.board)[i]? = some xc ∧
          (calculateChainPositions reachableOneTileWorld.board)[i - 1]? = some xp ∧
          xc = xp + stepWidth
            ((reachableOneTileWorld.board.chain.map TileRef.data).getD (i - 1) default)
            ((reachableOneTileWorld.board.chain.map TileRef.data).getD i default)) ∧
      (∀ i, i < reachableOneTileWorld.board.rootIndex.toNat →
        ∃ xc xn,
          (calculateChainPositions reachableOneTileWorld.board)[i]? = some xc ∧
          (calculateChainPositions reachableOneTileWorld.board)[i + 1]? = some xn ∧
          xc = xn - stepWidth
            ((reachableOneTileWorld.board.chain.map TileRef.data).getD (i + 1) default)
            ((reachableOneTileWorld.board.chain.map TileRef.data).getD i default))) := by
  have hreach : Reachable reachableOneTileWorld := by
    unfold reachableOneTileWorld
    exact Reachable.step _ (Reachable.step _ Reachable.init)
  exact ⟨hreach, by decide,
    c5_root_anchor_invariance reachableOneTileWorld hreach (by decide)⟩

/-- C7 is violated by the layout code: `calculateChainPositions` (and
`getPlacementPositions`) classify a tile as a double by `left === right`
alone, with no exemption for `SPECIAL_TILE_PIP_VALUE`.  A `(-1,-1)` wild
tile is therefore spaced with the narrow double half-width 0.5: the second
tile of `specialChainBoard` sits at 0.5 + 1.1 + 0.1 = 1.7, not at the
1.1 + 1.1 + 0.1 = 2.3 the sentinel-exempt rule would give. -/
theorem c7_double_sentinel_code_bug :
    isDoubleCode ⟨SPECIAL_TILE_PIP_VALUE, SPECIAL_TILE_PIP_VALUE,
      DominoType.wild⟩ = true ∧
    calculateChainPositions specialChainBoard = [0, 17 / 10] ∧
    (17 / 10 : ℚ) = DOUBLE_HALF_WIDTH + REGULAR_HALF_WIDTH + DOMINO_GAP ∧
    (17 / 10 : ℚ) ≠ REGULAR_HALF_WIDTH + REGULAR_HALF_WIDTH + DOMINO_GAP := by
  refine ⟨by decide, ?_, ?_, ?_⟩
  · rw [calculateChainPositions]
    norm_num [specialChainBoard, List.range_succ, calcPos_self, calcPos_of_gt,
      stepWidth, halfWidth, isDoubleCode, DOUBLE_HALF_WIDTH,
      REGULAR_HALF_WIDTH, DOMINO_GAP]
  · norm_num [DOUBLE_HALF_WIDTH, REGULAR_HALF_WIDTH, DOMINO_GAP]
  · norm_num [REGULAR_HALF_WIDTH, DOMINO_GAP]

/-- Witness for C8: `deal(-1)` on the fresh world throws and mutates
nothing (the spec's Scenario E). -/
theorem c8_deal_validation_witness :
    ((-1 : ℚ) < 0 ∨ (-1 : ℚ).den ≠ 1) ∧
    (dealTilesToRack initWorld (-1) =
        Except.error "Count must be a non-negative integer" ∧
      dealTilesToRackState initWorld (-1) = initWorld) :=
  ⟨Or.inl (by norm_num), c8_deal_validation initWorld (-1) (Or.inl (by norm_num))⟩

end Dominatro
